import Mathlib

/-
Verification of gst_processor.py, a script that derives a standardized
YYYY-MM-DD_Subject.pdf filename from a notification PDF.  Text is modelled
as List Char (ASCII fragment of Python str).  Network and PDF extraction
are abstracted: the extracted first-page text enters runMain as an
Option (List Char), and file writing is the MainOutcome.saved constructor.
-/

namespace GstProcessor

/-- Python regex class backslash-s restricted to ASCII:
space, tab, newline, carriage return, vertical tab, form feed. -/
def isSpaceChar (c : Char) : Bool :=
  c == ' ' || c == '\t' || c == '\n' || c == '\r' || c == '\x0b' || c == '\x0c'

/-- Python regex class backslash-w restricted to ASCII: letters, digits, underscore. -/
def isWordChar (c : Char) : Bool :=
  c.isAlphanum || c == '_'

/-- Characters kept by the first substitution in the cleaning step,
re.sub with pattern [^\w\s-] and empty replacement: word, whitespace, hyphen. -/
def keepChar (c : Char) : Bool :=
  isWordChar c || isSpaceChar c || c == '-'

/-- Python str.split with a single character separator. -/
def splitOnChar (sep : Char) : List Char → List (List Char)
  | [] => [[]]
  | c :: rest =>
    if c == sep then [] :: splitOnChar sep rest
    else
      match splitOnChar sep rest with
      | [] => [[c]]
      | h :: t => (c :: h) :: t

/-- Python str.strip: drop leading and trailing whitespace. -/
def stripL (l : List Char) : List Char :=
  ((l.dropWhile isSpaceChar).reverse.dropWhile isSpaceChar).reverse

/-- Python str.rstrip with argument underscore: drop trailing underscores. -/
def rstripUnderscore (l : List Char) : List Char :=
  (l.reverse.dropWhile (fun c => c == '_')).reverse

/-- Helper for collapseWs; the flag records whether the previous character
was whitespace (so a whitespace run emits a single underscore). -/
def collapseWsAux : Bool → List Char → List Char
  | _, [] => []
  | prevWs, c :: rest =>
    if isSpaceChar c then
      if prevWs then collapseWsAux true rest
      else '_' :: collapseWsAux true rest
    else c :: collapseWsAux false rest

/-- Python re.sub with pattern backslash-s-plus and replacement underscore:
each maximal whitespace run becomes one underscore. -/
def collapseWs (l : List Char) : List Char :=
  collapseWsAux false l

/-- The subject cleaning of gst_processor.py (lines 86 to 87 and again 164 to 165):
re.sub removing characters outside word, whitespace, hyphen; strip; re.sub
collapsing whitespace runs to single underscores; truncation to 80; rstrip
of underscores. -/
def sanitizeL (l : List Char) : List Char :=
  rstripUnderscore (List.take 80 (collapseWs (stripL (List.filter keepChar l))))

/-- Python substring containment (the in operator on str). -/
def occursIn (needle : List Char) : List Char → Bool
  | [] => needle.isEmpty
  | c :: rest => needle.isPrefixOf (c :: rest) || occursIn needle rest

/-- The text after the first occurrence of needle, when it occurs. -/
def afterFirst (needle : List Char) : List Char → Option (List Char)
  | [] => if needle.isEmpty then some [] else none
  | c :: rest =>
    if needle.isPrefixOf (c :: rest) then some ((c :: rest).drop needle.length)
    else afterFirst needle rest

/-- One character of a digit value below 10. -/
def digitChar (n : Nat) : Char := Char.ofNat (48 + n)

/-- Python format 02d for values up to 99 (day and month values). -/
def pad2 (n : Nat) : List Char := [digitChar (n / 10), digitChar (n % 10)]

/-- Four-digit zero padded year, the strftime directive for the year. -/
def pad4 (n : Nat) : List Char :=
  [digitChar (n / 1000 % 10), digitChar (n / 100 % 10), digitChar (n / 10 % 10),
   digitChar (n % 10)]

/-- Numeric value of a digit string (Python int on a digit string). -/
def toNatL (l : List Char) : Nat :=
  l.foldl (fun n c => n * 10 + (c.toNat - 48)) 0

/-- Separator class of date pattern 1: period, slash or hyphen. -/
def isSepC (c : Char) : Bool := c == '.' || c == '/' || c == '-'

/-- Characters consumed between the keyword and the numeric date in
date pattern 1: whitespace or colon. -/
def isWsColon (c : Char) : Bool := isSpaceChar c || c == ':'

def digitB (c : Char) : Bool := c.isDigit

/-- Match a fixed sequence of character predicates at the head of the input,
returning the consumed characters and the rest. -/
def matchPreds : List (Char → Bool) → List Char → Option (List Char × List Char)
  | [], l => some ([], l)
  | _ :: _, [] => none
  | p :: ps, c :: l =>
    if p c then (matchPreds ps l).map (fun q => (c :: q.1, q.2)) else none

/-- Shape of the captured token of date pattern 1 with a digits in the first
group and b in the second: digits, separator, digits, separator, four digits. -/
def dmyShape (a b : Nat) : List (Char → Bool) :=
  List.replicate a digitB ++ isSepC :: (List.replicate b digitB ++ isSepC :: List.replicate 4 digitB)

/-- The numeric date token of date pattern 1 at the head of the input.
The greedy one-or-two-digit groups of the regex backtrack in the order
two-two, two-one, one-two, one-one; each alternative is a fixed shape. -/
def matchDateToken (l : List Char) : Option (List Char) :=
  match matchPreds (dmyShape 2 2) l with
  | some q => some q.1
  | none =>
    match matchPreds (dmyShape 2 1) l with
    | some q => some q.1
    | none =>
      match matchPreds (dmyShape 1 2) l with
      | some q => some q.1
      | none => (matchPreds (dmyShape 1 1) l).map (fun q => q.1)

/-- Case-insensitive prefix test; the pattern argument is lowercase. -/
def icPrefix : List Char → List Char → Bool
  | [], _ => true
  | _ :: _, [] => false
  | p :: ps, c :: l => (c.toLower == p) && icPrefix ps l

/-- The keyword alternation of date pattern 1, tried in regex order:
Dated, Date, then the abbreviation No followed by a period (all case
insensitive).  Returns the rest of the input after the keyword.  A longer
alternative that matches but whose continuation fails cannot be rescued by
a shorter one, because the continuation would then have to start with a
letter where the regex requires whitespace, colon or a digit; committing
to the first matching alternative is therefore faithful. -/
def keywordRest (l : List Char) : Option (List Char) :=
  if icPrefix "dated".data l then some (l.drop 5)
  else if icPrefix "date".data l then some (l.drop 4)
  else if icPrefix "no.".data l then some (l.drop 3)
  else none

/-- Date pattern 1 anchored at the head of the input: keyword, a run of
whitespace or colons, then the numeric date token (the captured group). -/
def tryDateA (l : List Char) : Option (List Char) :=
  match keywordRest l with
  | some r => matchDateToken (r.dropWhile isWsColon)
  | none => none

/-- re.search of date pattern 1: leftmost position where it matches,
returning the captured numeric date token. -/
def searchDateA : List Char → Option (List Char)
  | [] => none
  | c :: rest =>
    match tryDateA (c :: rest) with
    | some tok => some tok
    | none => searchDateA rest

/-- Case-insensitive month name at the head of the input; returns the month
number and the length of the name.  No month name is a prefix of another,
so at most one alternative matches and regex alternation order is moot. -/
def monthAt (l : List Char) : Option (Nat × Nat) :=
  if icPrefix "january".data l then some (1, 7)
  else if icPrefix "february".data l then some (2, 8)
  else if icPrefix "march".data l then some (3, 5)
  else if icPrefix "april".data l then some (4, 5)
  else if icPrefix "may".data l then some (5, 3)
  else if icPrefix "june".data l then some (6, 4)
  else if icPrefix "july".data l then some (7, 4)
  else if icPrefix "august".data l then some (8, 6)
  else if icPrefix "september".data l then some (9, 9)
  else if icPrefix "october".data l then some (10, 7)
  else if icPrefix "november".data l then some (11, 8)
  else if icPrefix "december".data l then some (12, 8)
  else none

/-- Optional ordinal suffix st, nd, rd or th (case insensitive).  If the
suffix matches but the required following whitespace fails, retrying
without the suffix also fails at the whitespace, so committing is
faithful. -/
def skipOrdinal (l : List Char) : List Char :=
  if icPrefix "st".data l then l.drop 2
  else if icPrefix "nd".data l then l.drop 2
  else if icPrefix "rd".data l then l.drop 2
  else if icPrefix "th".data l then l.drop 2
  else l

/-- At least one whitespace character, consumed maximally (the regex
whitespace-plus; what follows is never whitespace, so greediness is exact). -/
def wsPlus (l : List Char) : Option (List Char) :=
  match l with
  | c :: rest => if isSpaceChar c then some (rest.dropWhile isSpaceChar) else none
  | [] => none

/-- Exactly four digits at the head of the input. -/
def matchYear4 (l : List Char) : Option (List Char) :=
  match matchPreds (List.replicate 4 digitB) l with
  | some q => some q.1
  | none => none

/-- Date pattern 2 after the day digits: optional ordinal suffix,
whitespace, month name, comma, whitespace, four-digit year.  Returns the
month number and the year digits. -/
def afterDayCore (l : List Char) : Option (Nat × List Char) :=
  match wsPlus (skipOrdinal l) with
  | none => none
  | some r2 =>
    match monthAt r2 with
    | none => none
    | some q =>
      match r2.drop q.2 with
      | ',' :: r4 =>
        match wsPlus r4 with
        | none => none
        | some r5 => (matchYear4 r5).map (fun y => (q.1, y))
      | _ => none

/-- Date pattern 2 anchored at the head of the input: one or two day digits
(greedy, two first), then afterDayCore.  Returns day digits, month number
and year digits. -/
def tryDateB (l : List Char) : Option (List Char × Nat × List Char) :=
  match l with
  | [] => none
  | a :: rest =>
    if digitB a then
      match rest with
      | b :: rest2 =>
        if digitB b then
          match afterDayCore rest2 with
          | some q => some ([a, b], q.1, q.2)
          | none => (afterDayCore rest).map (fun q => ([a], q.1, q.2))
        else (afterDayCore rest).map (fun q => ([a], q.1, q.2))
      | [] => none
    else none

/-- re.search of date pattern 2: leftmost position where it matches. -/
def searchDateB : List Char → Option (List Char × Nat × List Char)
  | [] => none
  | c :: rest =>
    match tryDateB (c :: rest) with
    | some q => some q
    | none => searchDateB rest

/-- Raw date built from a pattern 2 match (line 59 of the source):
day value and month number in 02d format, year digits verbatim. -/
def formatDateB (d : List Char) (m : Nat) (y : List Char) : List Char :=
  pad2 (toNatL d) ++ '/' :: (pad2 m ++ '/' :: y)

/-- searchDateB followed by formatDateB. -/
def searchDateBFmt (text : List Char) : Option (List Char) :=
  (searchDateB text).map (fun q => formatDateB q.1 q.2.1 q.2.2)

/-- The date extraction of parse_gst_details, parameterized by the fallback
used when pattern 1 fails (the parameter makes the claim that pattern 2 is
never consulted after a pattern 1 match a theorem).  group(1).strip() is
modelled by stripL on the token. -/
def parseRawDateWith (b : List Char → Option (List Char)) (text : List Char) :
    Option (List Char) :=
  match searchDateA text with
  | some tok => some (stripL tok)
  | none => b text

/-- Lines 48 to 59 of the source: pattern 1 first, else pattern 2. -/
def parseRawDate (text : List Char) : Option (List Char) :=
  parseRawDateWith searchDateBFmt text

def subjNotFound : List Char := "Subject_Not_Found".data

def govWord : List Char := "GOVERNMENT".data

def govMarker : List Char := "GOVERNMENT OF INDIA".data

def notifNo : List Char := "Notification No.".data

/-- Line 63 of the source: stripped, non-blank lines of the text. -/
def linesOf (text : List Char) : List (List Char) :=
  ((splitOnChar '\n' text).map stripL).filter (fun l => !l.isEmpty)

/-- Line 67 of the source: longer than 30 characters, equal to its own
uppercasing, not containing GOVERNMENT. -/
def goodCaps (l : List Char) : Bool :=
  decide (30 < l.length) && l == l.map Char.toUpper && !occursIn govWord l

/-- Lines 66 to 69 of the source: first qualifying line among the first
ten non-blank lines. -/
def subjA (text : List Char) : Option (List Char) :=
  ((linesOf text).take 10).find? goodCaps

/-- Line 73 of the source: text.split with the GOVERNMENT OF INDIA marker,
count one, last element. -/
def relevantText (text : List Char) : List Char :=
  (afterFirst govMarker text).getD text

/-- Line 76 of the source: the raw line strips to something non-empty, the
raw line is longer than 10 characters, and the raw line does not contain
Notification No. -/
def fbQual (line : List Char) : Bool :=
  !(stripL line).isEmpty && decide (10 < line.length) && !occursIn notifNo line

/-- Lines 74 to 77 of the source: qualifying lines of the relevant text,
stripped, first three. -/
def fallbackLines (text : List Char) : List (List Char) :=
  (((splitOnChar '\n' (relevantText text)).filter fbQual).map stripL).take 3

/-- Python str.join with an arbitrary separator string. -/
def joinWith (sep : List Char) : List (List Char) → List Char
  | [] => []
  | [a] => a
  | a :: b :: t => a ++ sep ++ joinWith sep (b :: t)

/-- Python single-space str.join. -/
def joinSpace (ls : List (List Char)) : List Char :=
  joinWith [' '] ls

/-- Lines 79 to 80 of the source: joined fallback lines when non-empty. -/
def fbSubject (text : List Char) : Option (List Char) :=
  match fallbackLines text with
  | [] => none
  | h :: t => some (joinSpace (h :: t))

/-- Lines 63 to 80 of the source, parameterized by the fallback (the
parameter makes the claim that the fallback is unused after an all-caps
hit a theorem): the all-caps line if found, else the fallback result,
else the placeholder. -/
def rawSubjectWith (fb : List Char → Option (List Char)) (text : List Char) : List Char :=
  let s1 := match subjA text with
    | some l => l
    | none => subjNotFound
  if s1 == subjNotFound then
    match fb text with
    | some s => s
    | none => subjNotFound
  else s1

/-- The pre-sanitization subject of parse_gst_details. -/
def rawSubject (text : List Char) : List Char :=
  rawSubjectWith fbSubject text

/-- Lines 38 to 89 of the source: raw date and subject; the subject is
cleaned unless it is the placeholder. -/
def parse_gst_details (text : List Char) : Option (List Char) × List Char :=
  let rawDate := parseRawDate text
  let subject := rawSubject text
  (rawDate, if subject == subjNotFound then subject else sanitizeL subject)

/-- Line 157 of the source: every hyphen and period becomes a slash. -/
def normalizeSeps (l : List Char) : List Char :=
  l.map (fun c => if c == '-' || c == '.' then '/' else c)

/-- Gregorian leap year rule used by the datetime library. -/
def isLeap (y : Nat) : Bool :=
  y % 4 == 0 && (y % 100 != 0 || y % 400 == 0)

def daysInMonth (y m : Nat) : Nat :=
  if m == 2 then (if isLeap y then 29 else 28)
  else if m == 4 || m == 6 || m == 9 || m == 11 then 30
  else 31

/-- Day, month, year values form a real calendar date the datetime
constructor accepts (year at least 1). -/
def isValidCalendarDMY (d m y : Nat) : Bool :=
  decide (1 ≤ d) && decide (1 ≤ m) && decide (m ≤ 12) &&
    decide (d ≤ daysInMonth y m) && decide (1 ≤ y)

/-- The strptime day field: one or two digits, or (a quirk of the strptime
day regex, whose alternation ends with a space followed by a nonzero
digit) one space then one digit.  The numeric range restrictions of the
regex alternation (1 to 31, no 00) are subsumed by the calendar check. -/
def dayField (l : List Char) : Option Nat :=
  if !l.isEmpty && decide (l.length ≤ 2) && l.all Char.isDigit then some (toNatL l)
  else
    match l with
    | [a, c] => if a == ' ' && c.isDigit then some (c.toNat - 48) else none
    | _ => none

/-- datetime.strptime with format %d/%m/%Y followed by the datetime
validity check: the string must be a day field, slash, one or two month
digits, slash, exactly four year digits, with nothing left over, and the
values must form a real calendar date (the numeric ranges of the strptime
regex, day 1 to 31 and month 1 to 12, are subsumed by that check). -/
def parseDMY (l : List Char) : Option (Nat × Nat × Nat) :=
  match splitOnChar '/' l with
  | [d, m, y] =>
    match dayField d with
    | none => none
    | some dv =>
      if !m.isEmpty && decide (m.length ≤ 2) && m.all Char.isDigit &&
         decide (y.length = 4) && y.all Char.isDigit then
        if isValidCalendarDMY dv (toNatL m) (toNatL y) then
          some (dv, toNatL m, toNatL y)
        else none
      else none
  | _ => none

/-- strftime with format %Y-%m-%d.  The year directive is modelled as
zero padded to four digits, the behavior documented for the datetime
library; C libraries differ on years below 1000, a corner reachable only
through a raw date whose year digits are below 1000 and left out of
scope here. -/
def formatYMD (y m d : Nat) : List Char :=
  pad4 y ++ '-' :: (pad2 m ++ '-' :: pad2 d)

/-- Lines 154 to 161 of the source: separators normalized, strptime with
%d/%m/%Y, reformatted as %Y-%m-%d; none models the ValueError path. -/
def standardizeDate (raw : List Char) : Option (List Char) :=
  (parseDMY (normalizeSeps raw)).map (fun q => formatYMD q.2.2 q.2.1 q.1)

/-- Outcome of the main block: exit with status 1, or a file written under
the given name. -/
inductive MainOutcome where
  | exitErr : MainOutcome
  | saved : List Char → MainOutcome
deriving DecidableEq

/-- Lines 114 to 171 of the source.  pdfText is the first-page text of the
downloaded PDF, none when download or extraction failed; the second
download inside create_and_save_pdf is abstracted into saved. -/
def runMain (manualRawDate manualSubject : List Char) (pdfText : Option (List Char)) :
    MainOutcome :=
  let parsed : Option (Option (List Char) × List Char) :=
    if !manualRawDate.isEmpty && !manualSubject.isEmpty then
      some (some manualRawDate, manualSubject)
    else
      match pdfText with
      | some t => some (parse_gst_details t)
      | none => none
  match parsed with
  | none => .exitErr
  | some (rawOpt, subject) =>
    match rawOpt with
    | none => .exitErr
    | some rawDate =>
      if rawDate.isEmpty || subject.isEmpty || subject == subjNotFound then .exitErr
      else
        match standardizeDate rawDate with
        | none => .exitErr
        | some ymd => .saved (ymd ++ '_' :: (sanitizeL subject ++ ".pdf".data))

/-! Helper lemmas about the cleaning pipeline. -/

theorem hl_or_true {a b : Bool} (h : (a || b) = true) : a = true ∨ b = true := by
  cases a
  · right; simpa using h
  · left; rfl

theorem hl_and_true {a b : Bool} (h : (a && b) = true) : a = true ∧ b = true := by
  cases a
  · exact absurd h (by simp)
  · exact ⟨rfl, by simpa using h⟩

theorem hl_space_cases {c : Char} (h : isSpaceChar c = true) :
    c = ' ' ∨ c = '\t' ∨ c = '\n' ∨ c = '\r' ∨ c = '\x0b' ∨ c = '\x0c' := by
  simp only [isSpaceChar, Bool.or_eq_true, beq_iff_eq] at h
  tauto

theorem hl_keep_safe_not_space {c : Char} (h : isWordChar c = true ∨ c = '-') :
    isSpaceChar c = false := by
  cases hsp : isSpaceChar c
  · rfl
  · rcases hl_space_cases hsp with h1 | h1 | h1 | h1 | h1 | h1 <;> subst h1 <;>
      rcases h with h | h <;> exact absurd h (by decide)

theorem hl_dropWhile_eq_self {p : Char → Bool} {l : List Char}
    (h : ∀ c ∈ l, p c = false) : l.dropWhile p = l := by
  cases l with
  | nil => rfl
  | cons a t => rw [List.dropWhile_cons, h a (List.mem_cons_self a t)]; simp

theorem hl_strip_subset {l : List Char} {c : Char} (h : c ∈ stripL l) : c ∈ l := by
  unfold stripL at h
  rw [List.mem_reverse] at h
  have h2 := (List.dropWhile_sublist isSpaceChar).subset h
  rw [List.mem_reverse] at h2
  exact (List.dropWhile_sublist isSpaceChar).subset h2

theorem hl_strip_id {l : List Char} (h : ∀ c ∈ l, isSpaceChar c = false) :
    stripL l = l := by
  unfold stripL
  rw [hl_dropWhile_eq_self h,
    hl_dropWhile_eq_self (fun c hc => h c (List.mem_reverse.mp hc)),
    List.reverse_reverse]

theorem hl_rstrip_subset {l : List Char} {c : Char} (h : c ∈ rstripUnderscore l) :
    c ∈ l := by
  unfold rstripUnderscore at h
  rw [List.mem_reverse] at h
  have h2 := (List.dropWhile_sublist (fun c => c == '_')).subset h
  exact List.mem_reverse.mp h2

theorem hl_head_dropWhile {p : Char → Bool} {l : List Char} {a : Char}
    (h : (l.dropWhile p).head? = some a) : p a = false := by
  induction l with
  | nil => exact absurd h (by simp [List.dropWhile])
  | cons c t ih =>
    rw [List.dropWhile_cons] at h
    by_cases hc : p c = true
    · rw [if_pos hc] at h; exact ih h
    · rw [if_neg hc] at h
      rw [List.head?_cons, Option.some.injEq] at h
      rw [← h]
      exact Bool.eq_false_iff.mpr hc

theorem hl_rstrip_getLast (l : List Char) :
    (rstripUnderscore l).getLast? ≠ some '_' := by
  unfold rstripUnderscore
  rw [List.getLast?_reverse]
  intro h
  have := hl_head_dropWhile h
  simp at this

theorem hl_rstrip_id {l : List Char} (h : l.getLast? ≠ some '_') :
    rstripUnderscore l = l := by
  unfold rstripUnderscore
  cases hr : l.reverse with
  | nil =>
    have : l = [] := by
      have := congrArg List.reverse hr
      rwa [List.reverse_reverse] at this
    simp [this]
  | cons a t =>
    have ha : (a == '_') = false := by
      have hh : l.reverse.head? = some a := by rw [hr]; rfl
      rw [List.head?_reverse] at hh
      cases hb : a == '_'
      · rfl
      · exact absurd (eq_of_beq hb ▸ hh) h
    rw [List.dropWhile_cons, ha]
    simp only [Bool.false_eq_true, if_false]
    have h3 := congrArg List.reverse hr
    rw [List.reverse_reverse] at h3
    exact h3.symm

theorem hl_rstrip_length (l : List Char) :
    (rstripUnderscore l).length ≤ l.length := by
  unfold rstripUnderscore
  rw [List.length_reverse]
  calc (l.reverse.dropWhile (fun c => c == '_')).length
      ≤ l.reverse.length := (List.dropWhile_sublist _).length_le
    _ = l.length := List.length_reverse l

theorem hl_collapseAux_mem {b : Bool} {l : List Char} {c : Char}
    (h : c ∈ collapseWsAux b l) : c = '_' ∨ (c ∈ l ∧ isSpaceChar c = false) := by
  induction l generalizing b with
  | nil => exact absurd h (by simp [collapseWsAux])
  | cons a t ih =>
    by_cases ha : isSpaceChar a = true
    · cases b with
      | true =>
        simp only [collapseWsAux, ha, if_true] at h
        rcases ih h with h1 | ⟨h1, h2⟩
        · exact Or.inl h1
        · exact Or.inr ⟨List.mem_cons_of_mem a h1, h2⟩
      | false =>
        simp only [collapseWsAux, ha, if_true] at h
        rcases List.mem_cons.mp h with h1 | h1
        · exact Or.inl h1
        · rcases ih h1 with h2 | ⟨h2, h3⟩
          · exact Or.inl h2
          · exact Or.inr ⟨List.mem_cons_of_mem a h2, h3⟩
    · have ha2 : isSpaceChar a = false := Bool.eq_false_iff.mpr ha
      simp only [collapseWsAux, ha2, Bool.false_eq_true, if_false] at h
      rcases List.mem_cons.mp h with h1 | h1
      · exact Or.inr ⟨h1 ▸ List.mem_cons_self a t, h1 ▸ ha2⟩
      · rcases ih h1 with h2 | ⟨h2, h3⟩
        · exact Or.inl h2
        · exact Or.inr ⟨List.mem_cons_of_mem a h2, h3⟩

theorem hl_collapseAux_id {b : Bool} {l : List Char}
    (h : ∀ c ∈ l, isSpaceChar c = false) : collapseWsAux b l = l := by
  induction l generalizing b with
  | nil => rfl
  | cons a t ih =>
    have ha := h a (List.mem_cons_self a t)
    simp only [collapseWsAux, ha, Bool.false_eq_true, if_false]
    rw [ih (fun c hc => h c (List.mem_cons_of_mem a hc))]

/-- Every character of the cleaned subject is a word character or hyphen. -/
theorem hl_sanitize_chars (s : List Char) :
    ∀ c ∈ sanitizeL s, isWordChar c = true ∨ c = '-' := by
  intro c hc
  unfold sanitizeL at hc
  have h1 : c ∈ List.take 80 (collapseWs (stripL (List.filter keepChar s))) :=
    hl_rstrip_subset hc
  have h2 : c ∈ collapseWs (stripL (List.filter keepChar s)) :=
    List.take_subset 80 _ h1
  rcases hl_collapseAux_mem h2 with h3 | ⟨h3, h4⟩
  · exact Or.inl (by rw [h3]; rfl)
  · have h5 : c ∈ List.filter keepChar s := hl_strip_subset h3
    have h6 : keepChar c = true := (List.mem_filter.mp h5).2
    unfold keepChar at h6
    rcases hl_or_true h6 with h7 | h7
    · rcases hl_or_true h7 with h8 | h8
      · exact Or.inl h8
      · rw [h8] at h4; exact absurd h4 (by simp)
    · exact Or.inr (eq_of_beq h7)

/-- The cleaned subject has at most 80 characters. -/
theorem hl_sanitize_length (s : List Char) : (sanitizeL s).length ≤ 80 := by
  unfold sanitizeL
  calc (rstripUnderscore (List.take 80 (collapseWs (stripL (List.filter keepChar s))))).length
      ≤ (List.take 80 (collapseWs (stripL (List.filter keepChar s)))).length :=
        hl_rstrip_length _
    _ ≤ 80 := List.length_take_le 80 _

/-- The cleaned subject does not end with an underscore. -/
theorem hl_sanitize_getLast (s : List Char) :
    (sanitizeL s).getLast? ≠ some '_' := hl_rstrip_getLast _

/-- C6: for every input string the subject sanitization removes every
character that is not a word character, whitespace or hyphen, strips
leading and trailing whitespace, replaces each whitespace run by a single
underscore, truncates to 80 characters and removes trailing underscores,
in that order; sanitizing the string Hello, World!!  Foo (with doubled
space) yields Hello_World_Foo. -/
theorem c6_sanitize_pipeline (s : List Char) :
    sanitizeL s =
      rstripUnderscore (List.take 80 (collapseWs (stripL (List.filter keepChar s)))) ∧
    sanitizeL "Hello, World!!  Foo".data = "Hello_World_Foo".data :=
  ⟨rfl, by decide⟩

/-- C7: for every input string the sanitized output contains only word
characters and hyphens (in particular no spaces and no other punctuation),
has length at most 80, and does not end with an underscore. -/
theorem c7_sanitize_invariant (s : List Char) :
    (∀ c ∈ sanitizeL s, isWordChar c = true ∨ c = '-') ∧
    (sanitizeL s).length ≤ 80 ∧
    (sanitizeL s).getLast? ≠ some '_' :=
  ⟨hl_sanitize_chars s, hl_sanitize_length s, hl_sanitize_getLast s⟩

/-- C9: subject sanitization is idempotent, and consequently the second
cleaning pass of the main block never changes the subject component
produced by parse_gst_details (the placeholder is also a fixed point). -/
theorem c9_sanitize_idempotent (s text : List Char) :
    sanitizeL (sanitizeL s) = sanitizeL s ∧
    sanitizeL ((parse_gst_details text).2) = (parse_gst_details text).2 := by
  have hidem : ∀ u : List Char, sanitizeL (sanitizeL u) = sanitizeL u := by
    intro u
    have hchars := hl_sanitize_chars u
    have hkeep : ∀ c ∈ sanitizeL u, keepChar c = true := by
      intro c hc
      rcases hchars c hc with h | h
      · unfold keepChar; rw [h]; rfl
      · unfold keepChar; rw [h]; rfl
    have hnos : ∀ c ∈ sanitizeL u, isSpaceChar c = false :=
      fun c hc => hl_keep_safe_not_space (hchars c hc)
    calc sanitizeL (sanitizeL u)
        = rstripUnderscore (List.take 80 (collapseWs (stripL
            (List.filter keepChar (sanitizeL u))))) := rfl
      _ = rstripUnderscore (List.take 80 (collapseWs (stripL (sanitizeL u)))) := by
            rw [List.filter_eq_self.mpr hkeep]
      _ = rstripUnderscore (List.take 80 (collapseWs (sanitizeL u))) := by
            rw [hl_strip_id hnos]
      _ = rstripUnderscore (List.take 80 (sanitizeL u)) := by
            unfold collapseWs; rw [hl_collapseAux_id hnos]
      _ = rstripUnderscore (sanitizeL u) := by
            rw [List.take_of_length_le (hl_sanitize_length u)]
      _ = sanitizeL u := hl_rstrip_id (hl_sanitize_getLast u)
  refine ⟨hidem s, ?_⟩
  simp only [parse_gst_details]
  cases hb : rawSubject text == subjNotFound
  · simp only [Bool.false_eq_true, if_false]
    exact hidem (rawSubject text)
  · simp only [if_true]
    rw [eq_of_beq hb]
    decide

/-! Helper lemmas about the date pattern matchers. -/

theorem hl_matchPreds_all {P : Char → Prop} :
    ∀ (ps : List (Char → Bool)) (l : List Char) (q : List Char × List Char),
      (∀ p ∈ ps, ∀ c, p c = true → P c) → matchPreds ps l = some q →
      ∀ c ∈ q.1, P c := by
  intro ps
  induction ps with
  | nil =>
    intro l q _ hm c hc
    simp only [matchPreds, Option.some.injEq] at hm
    rw [← hm] at hc
    exact absurd hc (by simp)
  | cons p ps ih =>
    intro l q hp hm c hc
    cases l with
    | nil => exact absurd hm (by simp [matchPreds])
    | cons a t =>
      simp only [matchPreds] at hm
      by_cases hpa : p a = true
      · rw [if_pos hpa] at hm
        cases hq : matchPreds ps t with
        | none => rw [hq] at hm; exact absurd hm (by simp)
        | some q2 =>
          rw [hq] at hm
          simp only [Option.map_some', Option.some.injEq] at hm
          rw [← hm] at hc
          rcases List.mem_cons.mp hc with h1 | h1
          · exact h1 ▸ hp p (List.mem_cons_self p ps) a hpa
          · exact ih t q2 (fun r hr => hp r (List.mem_cons_of_mem p hr)) hq c h1
      · rw [if_neg hpa] at hm
        exact absurd hm (by simp)

theorem hl_dmyShape_spec (a b : Nat) :
    ∀ p ∈ dmyShape a b, ∀ c, p c = true → (c.isDigit = true ∨ isSepC c = true) := by
  intro p hp c hc
  unfold dmyShape at hp
  rcases List.mem_append.mp hp with h1 | h1
  · rw [List.eq_of_mem_replicate h1] at hc
    exact Or.inl hc
  · rcases List.mem_cons.mp h1 with h2 | h2
    · rw [h2] at hc
      exact Or.inr hc
    · rcases List.mem_append.mp h2 with h3 | h3
      · rw [List.eq_of_mem_replicate h3] at hc
        exact Or.inl hc
      · rcases List.mem_cons.mp h3 with h4 | h4
        · rw [h4] at hc
          exact Or.inr hc
        · rw [List.eq_of_mem_replicate h4] at hc
          exact Or.inl hc

theorem hl_digit_or_sep_not_space {c : Char}
    (h : c.isDigit = true ∨ isSepC c = true) : isSpaceChar c = false := by
  cases hsp : isSpaceChar c
  · rfl
  · rcases hl_space_cases hsp with h1 | h1 | h1 | h1 | h1 | h1 <;> subst h1 <;>
      rcases h with h | h <;> exact absurd h (by decide)

theorem hl_matchDateToken_chars {l tok : List Char}
    (h : matchDateToken l = some tok) : ∀ c ∈ tok, isSpaceChar c = false := by
  have hone : ∀ (a b : Nat) (q : List Char × List Char),
      matchPreds (dmyShape a b) l = some q → ∀ c ∈ q.1, isSpaceChar c = false := by
    intro a b q hq c hc
    exact hl_digit_or_sep_not_space
      (hl_matchPreds_all (dmyShape a b) l q (hl_dmyShape_spec a b) hq c hc)
  unfold matchDateToken at h
  cases h22 : matchPreds (dmyShape 2 2) l with
  | some q =>
    rw [h22] at h
    simp only [Option.some.injEq] at h
    exact h ▸ hone 2 2 q h22
  | none =>
    rw [h22] at h
    cases h21 : matchPreds (dmyShape 2 1) l with
    | some q =>
      rw [h21] at h
      simp only [Option.some.injEq] at h
      exact h ▸ hone 2 1 q h21
    | none =>
      rw [h21] at h
      cases h12 : matchPreds (dmyShape 1 2) l with
      | some q =>
        rw [h12] at h
        simp only [Option.some.injEq] at h
        exact h ▸ hone 1 2 q h12
      | none =>
        rw [h12] at h
        cases h11 : matchPreds (dmyShape 1 1) l with
        | some q =>
          rw [h11] at h
          simp only [Option.map_some', Option.some.injEq] at h
          exact h ▸ hone 1 1 q h11
        | none =>
          rw [h11] at h
          exact absurd h (by simp)

theorem hl_tryDateA_chars {l tok : List Char} (h : tryDateA l = some tok) :
    ∀ c ∈ tok, isSpaceChar c = false := by
  unfold tryDateA at h
  cases hk : keywordRest l with
  | none => rw [hk] at h; exact absurd h (by simp)
  | some r => rw [hk] at h; exact hl_matchDateToken_chars h

theorem hl_searchDateA_chars {text tok : List Char}
    (h : searchDateA text = some tok) : ∀ c ∈ tok, isSpaceChar c = false := by
  induction text with
  | nil => exact absurd h (by simp [searchDateA])
  | cons c rest ih =>
    simp only [searchDateA] at h
    cases ht : tryDateA (c :: rest) with
    | some t2 =>
      rw [ht] at h
      simp only [Option.some.injEq] at h
      exact h ▸ hl_tryDateA_chars ht
    | none =>
      rw [ht] at h
      exact ih h

/-- C2 (amended): whenever date pattern A matches anywhere in the text,
parse_gst_details returns the first matched date token as the raw date, no
matter what the pattern B fallback would produce (pattern B is not
consulted).  The particular consequence holds for texts whose first
pattern A match token is 05/04/2024, such as the text
Dated: 05/04/2024 itself, not for every text merely containing that
substring. -/
theorem c2_patternA_first (text tok : List Char)
    (h : searchDateA text = some tok) :
    (∀ b, parseRawDateWith b text = some tok) ∧
    (parse_gst_details text).1 = some tok := by
  have hs : stripL tok = tok := hl_strip_id (hl_searchDateA_chars h)
  constructor
  · intro b
    unfold parseRawDateWith
    rw [h]
    show some (stripL tok) = some tok
    rw [hs]
  · show parseRawDate text = some tok
    unfold parseRawDate parseRawDateWith
    rw [h]
    show some (stripL tok) = some tok
    rw [hs]

/-- C2 witness: on the text Dated: 05/04/2024 pattern A matches with token
05/04/2024 and parse_gst_details returns it as the raw date. -/
theorem c2_patternA_first_witness :
    searchDateA "Dated: 05/04/2024".data = some "05/04/2024".data ∧
    (parse_gst_details "Dated: 05/04/2024".data).1 = some "05/04/2024".data :=
  ⟨by decide, (c2_patternA_first _ _ (by decide)).2⟩

/-- C2 counterexample: the text Date: 01/01/2020 Dated: 05/04/2024
contains the substring Dated: 05/04/2024, yet the extracted raw date is
the earlier first match 01/01/2020, not 05/04/2024; so the claim is false
for some texts containing Dated: 05/04/2024. -/
theorem c2_contains_not_sufficient :
    occursIn "Dated: 05/04/2024".data "Date: 01/01/2020 Dated: 05/04/2024".data = true ∧
    (parse_gst_details "Date: 01/01/2020 Dated: 05/04/2024".data).1 =
      some "01/01/2020".data ∧
    "01/01/2020".data ≠ "05/04/2024".data :=
  ⟨by decide, by decide, by decide⟩

/-- C3 (amended): when pattern A does not match and pattern B does,
parse_gst_details returns the raw date built from the first pattern B
match: day value and month number zero padded to two digits, slashes, year
digits verbatim.  The particular consequence holds for texts whose first
pattern B match is 12th January, 2024, such as the text
12th January, 2024 itself, not for every pattern A free text merely
containing that substring. -/
theorem c3_patternB_fallback (text d : List Char) (m : Nat) (y : List Char)
    (hA : searchDateA text = none) (hB : searchDateB text = some (d, m, y)) :
    (parse_gst_details text).1 = some (pad2 (toNatL d) ++ '/' :: (pad2 m ++ '/' :: y)) := by
  show parseRawDate text = _
  unfold parseRawDate parseRawDateWith searchDateBFmt
  rw [hA, hB]
  rfl

/-- C3 witness: on the text 12th January, 2024 pattern A fails, pattern B
matches day 12, month January, year 2024, and the raw date is 12/01/2024. -/
theorem c3_patternB_fallback_witness :
    searchDateA "12th January, 2024".data = none ∧
    (parse_gst_details "12th January, 2024".data).1 =
      some (pad2 (toNatL "12".data) ++ '/' :: (pad2 1 ++ '/' :: "2024".data)) ∧
    pad2 (toNatL "12".data) ++ '/' :: (pad2 1 ++ '/' :: "2024".data) = "12/01/2024".data :=
  ⟨by decide, c3_patternB_fallback _ _ _ _ (by decide) (by decide), by decide⟩

/-- C3 counterexample: the text 5 March, 2020 and 12th January, 2024 has
no pattern A match and contains the substring 12th January, 2024, yet the
extracted raw date is 05/03/2020 from the earlier first pattern B match,
not 12/01/2024; so the claim is false for some such texts. -/
theorem c3_contains_not_sufficient :
    occursIn "12th January, 2024".data "5 March, 2020 and 12th January, 2024".data = true ∧
    searchDateA "5 March, 2020 and 12th January, 2024".data = none ∧
    (parse_gst_details "5 March, 2020 and 12th January, 2024".data).1 =
      some "05/03/2020".data ∧
    "05/03/2020".data ≠ "12/01/2024".data :=
  ⟨by decide, by decide, by decide, by decide⟩

/-- C4: if any of the first ten non-blank stripped lines is longer than 30
characters, equal to its own uppercasing and free of the substring
GOVERNMENT, then the first such line becomes the subject verbatim before
sanitization (whatever fallback is supplied, so the fallback heuristic is
not used), and the final subject of parse_gst_details is its
sanitization. -/
theorem c4_allcaps_subject (text l : List Char) (h : subjA text = some l) :
    (∀ fb, rawSubjectWith fb text = l) ∧
    (parse_gst_details text).2 = sanitizeL l := by
  have hg : goodCaps l = true := List.find?_some h
  have hlen : 30 < l.length := by
    unfold goodCaps at hg
    have h1 := (hl_and_true (hl_and_true hg).1).1
    exact of_decide_eq_true h1
  have hne : l ≠ subjNotFound := by
    intro he
    rw [he] at hlen
    exact absurd hlen (by decide)
  have hbeq : (l == subjNotFound) = false := beq_eq_false_iff_ne.mpr hne
  have hmain : ∀ fb, rawSubjectWith fb text = l := by
    intro fb
    unfold rawSubjectWith
    rw [h]
    simp only [hbeq, Bool.false_eq_true, if_false]
  refine ⟨hmain, ?_⟩
  have hraw : rawSubject text = l := hmain fbSubject
  simp only [parse_gst_details]
  rw [hraw]
  simp only [hbeq, Bool.false_eq_true, if_false]

/-- C4 witness: a 41-character all-caps first line without GOVERNMENT is
picked verbatim and then sanitized. -/
theorem c4_allcaps_subject_witness :
    subjA "NOTIFICATION REGARDING TAX RATES FOR 2024\nmore text here".data =
      some "NOTIFICATION REGARDING TAX RATES FOR 2024".data ∧
    rawSubject "NOTIFICATION REGARDING TAX RATES FOR 2024\nmore text here".data =
      "NOTIFICATION REGARDING TAX RATES FOR 2024".data ∧
    (parse_gst_details "NOTIFICATION REGARDING TAX RATES FOR 2024\nmore text here".data).2 =
      sanitizeL "NOTIFICATION REGARDING TAX RATES FOR 2024".data :=
  ⟨by decide, (c4_allcaps_subject _ _ (by decide)).1 fbSubject,
    (c4_allcaps_subject _ _ (by decide)).2⟩

/-! Helper lemmas about marker search. -/

theorem hl_or_false {a b : Bool} (h : (a || b) = false) : a = false ∧ b = false := by
  cases a
  · exact ⟨rfl, by simpa using h⟩
  · exact absurd h (by simp)

theorem hl_afterFirst_none {needle text : List Char}
    (h : occursIn needle text = false) : afterFirst needle text = none := by
  induction text with
  | nil =>
    unfold occursIn at h
    unfold afterFirst
    rw [h]
    simp
  | cons c rest ih =>
    unfold occursIn at h
    have h3 := hl_or_false h
    unfold afterFirst
    rw [h3.1]
    simp only [Bool.false_eq_true, if_false]
    exact ih h3.2

/-- C10: when the text does not contain the GOVERNMENT OF INDIA marker,
the split on the marker yields the whole text as its last element, so the
fallback heuristic scans the entire text and its candidate lines are drawn
from the whole page. -/
theorem c10_marker_absent (text : List Char)
    (h : occursIn govMarker text = false) :
    relevantText text = text ∧
    fallbackLines text =
      (((splitOnChar '\n' text).filter fbQual).map stripL).take 3 := by
  have h1 : relevantText text = text := by
    unfold relevantText
    rw [hl_afterFirst_none h]
    rfl
  refine ⟨h1, ?_⟩
  unfold fallbackLines
  rw [h1]

/-- C10 witness: a concrete text without the marker. -/
theorem c10_marker_absent_witness :
    occursIn govMarker "Hello there\nthis page has no marker anywhere\nat all".data = false ∧
    relevantText "Hello there\nthis page has no marker anywhere\nat all".data =
      "Hello there\nthis page has no marker anywhere\nat all".data :=
  ⟨by decide, (c10_marker_absent _ (by decide)).1⟩

/-! Helper lemmas reducing runMain on the two entry paths. -/

theorem hl_runMain_auto (text : List Char) :
    runMain [] [] (some text) =
      (match (parse_gst_details text).1 with
       | none => MainOutcome.exitErr
       | some rawDate =>
         if rawDate.isEmpty || (parse_gst_details text).2.isEmpty ||
             (parse_gst_details text).2 == subjNotFound then MainOutcome.exitErr
         else
           match standardizeDate rawDate with
           | none => MainOutcome.exitErr
           | some ymd =>
             MainOutcome.saved
               (ymd ++ '_' :: (sanitizeL ((parse_gst_details text).2) ++ ".pdf".data))) :=
  rfl

theorem hl_runMain_manual (mdate msubj : List Char) (t : Option (List Char))
    (h1 : mdate ≠ []) (h2 : msubj ≠ []) :
    runMain mdate msubj t =
      (if mdate.isEmpty || msubj.isEmpty || msubj == subjNotFound then
        MainOutcome.exitErr
       else
         match standardizeDate mdate with
         | none => MainOutcome.exitErr
         | some ymd =>
           MainOutcome.saved (ymd ++ '_' :: (sanitizeL msubj ++ ".pdf".data))) := by
  cases mdate with
  | nil => exact absurd rfl h1
  | cons a t1 =>
    cases msubj with
    | nil => exact absurd rfl h2
    | cons b t2 => rfl

/-- Follows the words of the claim for the fallback filter: a qualifying
line is longer than 10 characters and does not contain Notification No.
(the source additionally discards lines that are blank after stripping). -/
def claimFallbackLines (text : List Char) : List (List Char) :=
  (((splitOnChar '\n' (relevantText text)).filter
      (fun line => decide (10 < line.length) && !occursIn notifNo line)).map stripL).take 3

/-- C5 counterexample: on a page whose all-caps heuristic fails and whose
text after the marker starts with a line of twelve spaces, the source
skips that blank line (it strips to nothing) while the claim counts it as
qualifying (it is longer than 10 characters and lacks Notification No.),
so the subject computed by the code differs from the first-three-
qualifying-lines join described by the claim. -/
theorem c5_blank_line_divergence :
    subjA ("x\nGOVERNMENT OF INDIA\n            \nAlpha beta gamma delta\nEpsilon zeta eta theta\nIota kappa lambda mu\n".data) = none ∧
    rawSubject ("x\nGOVERNMENT OF INDIA\n            \nAlpha beta gamma delta\nEpsilon zeta eta theta\nIota kappa lambda mu\n".data) =
      "Alpha beta gamma delta Epsilon zeta eta theta Iota kappa lambda mu".data ∧
    joinSpace (claimFallbackLines ("x\nGOVERNMENT OF INDIA\n            \nAlpha beta gamma delta\nEpsilon zeta eta theta\nIota kappa lambda mu\n".data)) =
      " Alpha beta gamma delta Epsilon zeta eta theta".data ∧
    rawSubject ("x\nGOVERNMENT OF INDIA\n            \nAlpha beta gamma delta\nEpsilon zeta eta theta\nIota kappa lambda mu\n".data) ≠
      joinSpace (claimFallbackLines ("x\nGOVERNMENT OF INDIA\n            \nAlpha beta gamma delta\nEpsilon zeta eta theta\nIota kappa lambda mu\n".data)) :=
  ⟨by decide, by decide, by decide, by decide⟩

/-- C5 (amended): when the all-caps heuristic finds no subject, the
fallback takes the text after the GOVERNMENT OF INDIA marker and selects
the first three lines that are non-blank after stripping, longer than 10
characters before stripping, and free of Notification No.; their stripped
forms joined by single spaces become the pre-sanitization subject.  If no
line qualifies the subject is the placeholder Subject_Not_Found and the
main block exits with status 1 without writing a file. -/
theorem c5_fallback_subject (text : List Char) (hA : subjA text = none) :
    (fallbackLines text ≠ [] → rawSubject text = joinSpace (fallbackLines text)) ∧
    (fallbackLines text = [] →
      rawSubject text = subjNotFound ∧
      runMain [] [] (some text) = MainOutcome.exitErr) := by
  constructor
  · intro hne
    cases hf : fallbackLines text with
    | nil => exact absurd hf hne
    | cons a t =>
      have hfb : fbSubject text = some (joinSpace (a :: t)) := by
        unfold fbSubject
        rw [hf]
      unfold rawSubject rawSubjectWith
      rw [hA, hfb]
      simp
  · intro hf0
    have hfb : fbSubject text = none := by
      unfold fbSubject
      rw [hf0]
    have hraw : rawSubject text = subjNotFound := by
      unfold rawSubject rawSubjectWith
      rw [hA, hfb]
      simp
    refine ⟨hraw, ?_⟩
    have hsub2 : (parse_gst_details text).2 = subjNotFound := by
      simp only [parse_gst_details]
      rw [hraw]
      simp
    rw [hl_runMain_auto text, hsub2]
    cases hro : (parse_gst_details text).1 with
    | none => rfl
    | some rd => simp

/-- C5 witness: a short page with no marker and no qualifying line ends in
the placeholder and a status 1 exit. -/
theorem c5_fallback_subject_witness :
    subjA "ab\ncd".data = none ∧
    (rawSubject "ab\ncd".data = subjNotFound ∧
      runMain [] [] (some "ab\ncd".data) = MainOutcome.exitErr) :=
  ⟨by decide, (c5_fallback_subject _ (by decide)).2 (by decide)⟩

/-- C1: with a URL plus a non-empty manual date and a non-empty manual
subject, automated PDF parsing is skipped entirely (the outcome is the
same whatever text the download would have produced), and any saved file
is named by the manual date standardized to YYYY-MM-DD, an underscore,
the sanitized manual subject, and the .pdf suffix; manual date 01-01-2023
with manual subject Test Subject produces 2023-01-01_Test_Subject.pdf. -/
theorem c1_manual_override (mdate msubj : List Char) (h1 : mdate ≠ []) (h2 : msubj ≠ [])
    (t t2 : Option (List Char)) :
    runMain mdate msubj t = runMain mdate msubj t2 ∧
    (∀ fn, runMain mdate msubj t = MainOutcome.saved fn →
      ∃ ymd, standardizeDate mdate = some ymd ∧
        fn = ymd ++ '_' :: (sanitizeL msubj ++ ".pdf".data)) := by
  constructor
  · rw [hl_runMain_manual mdate msubj t h1 h2, hl_runMain_manual mdate msubj t2 h1 h2]
  · intro fn hsave
    rw [hl_runMain_manual mdate msubj t h1 h2] at hsave
    cases hcond : (mdate.isEmpty || msubj.isEmpty || msubj == subjNotFound) with
    | true =>
      rw [hcond] at hsave
      simp at hsave
    | false =>
      rw [hcond] at hsave
      simp only [Bool.false_eq_true, if_false] at hsave
      cases hstd : standardizeDate mdate with
      | none =>
        rw [hstd] at hsave
        simp at hsave
      | some ymd =>
        rw [hstd] at hsave
        refine ⟨ymd, rfl, ?_⟩
        injection hsave with h
        exact h.symm

/-- C1 witness: the manual pair 01-01-2023 and Test Subject ignores any
downloaded text and saves 2023-01-01_Test_Subject.pdf. -/
theorem c1_manual_override_witness :
    runMain "01-01-2023".data "Test Subject".data (some "SOME PAGE TEXT".data) =
      runMain "01-01-2023".data "Test Subject".data none ∧
    runMain "01-01-2023".data "Test Subject".data none =
      MainOutcome.saved "2023-01-01_Test_Subject.pdf".data :=
  ⟨(c1_manual_override _ _ (by decide) (by decide) _ _).1, by decide⟩

/-! Helper lemmas characterizing splitOnChar by concatenation. -/

theorem hl_split_ne_nil (sep : Char) (l : List Char) : splitOnChar sep l ≠ [] := by
  cases l with
  | nil => simp [splitOnChar]
  | cons c rest =>
    simp only [splitOnChar]
    cases hc : c == sep
    · simp only [Bool.false_eq_true, if_false]
      cases hr : splitOnChar sep rest <;> simp
    · simp

theorem hl_joinWith_cons (s : List Char) (c : Char) (h : List Char)
    (t : List (List Char)) :
    joinWith s ((c :: h) :: t) = c :: joinWith s (h :: t) := by
  cases t <;> rfl

theorem hl_joinWith_split (sep : Char) (l : List Char) :
    joinWith [sep] (splitOnChar sep l) = l := by
  induction l with
  | nil => rfl
  | cons c t ih =>
    simp only [splitOnChar]
    cases hc : c == sep
    · simp only [hc, Bool.false_eq_true, if_false]
      cases hr : splitOnChar sep t with
      | nil => exact absurd hr (hl_split_ne_nil sep t)
      | cons h1 t1 =>
        rw [hl_joinWith_cons]
        rw [hr] at ih
        rw [ih]
    · simp only [hc, if_true]
      have hceq : c = sep := eq_of_beq hc
      subst hceq
      cases hr : splitOnChar c t with
      | nil => exact absurd hr (hl_split_ne_nil c t)
      | cons h1 t1 =>
        rw [hr] at ih
        show c :: joinWith [c] (h1 :: t1) = c :: t
        rw [ih]

theorem hl_split_nosep {sep : Char} {a : List Char}
    (h : ∀ c ∈ a, (c == sep) = false) : splitOnChar sep a = [a] := by
  induction a with
  | nil => rfl
  | cons c t ih =>
    have hc := h c (List.mem_cons_self c t)
    simp only [splitOnChar, hc, Bool.false_eq_true, if_false]
    rw [ih (fun x hx => h x (List.mem_cons_of_mem c hx))]

theorem hl_split_append {sep : Char} {a rest : List Char}
    (h : ∀ c ∈ a, (c == sep) = false) :
    splitOnChar sep (a ++ sep :: rest) = a :: splitOnChar sep rest := by
  induction a with
  | nil =>
    simp only [List.nil_append, splitOnChar, beq_self_eq_true, if_true]
  | cons c t ih =>
    have hc := h c (List.mem_cons_self c t)
    simp only [List.cons_append, splitOnChar, hc, Bool.false_eq_true, if_false,
      List.append_eq]
    rw [ih (fun x hx => h x (List.mem_cons_of_mem c hx))]

theorem hl_digit_ne_slash {c : Char} (h : c.isDigit = true) : (c == '/') = false := by
  cases hb : c == '/'
  · rfl
  · exact absurd (eq_of_beq hb ▸ h) (by decide)

/-- The day field accepted by the strptime %d directive and its exact
shape: a non-empty digit string of length at most two, or a single space
followed by one digit. -/
def lenientDayField (ds : List Char) (dv : Nat) : Prop :=
  (ds ≠ [] ∧ ds.length ≤ 2 ∧ (∀ c ∈ ds, c.isDigit = true) ∧ dv = toNatL ds) ∨
  (∃ c, ds = [' ', c] ∧ c.isDigit = true ∧ dv = c.toNat - 48)

theorem hl_dayField_iff {ds : List Char} {dv : Nat} :
    dayField ds = some dv ↔ lenientDayField ds dv := by
  constructor
  · intro h
    unfold dayField at h
    by_cases hb : (!ds.isEmpty && decide (ds.length ≤ 2) && ds.all Char.isDigit) = true
    · rw [if_pos hb] at h
      left
      have h1 := hl_and_true hb
      have h2 := hl_and_true h1.1
      refine ⟨?_, of_decide_eq_true h2.2, List.all_eq_true.mp h1.2, ?_⟩
      · intro he
        rw [he] at h2
        exact absurd h2.1 (by decide)
      · rw [Option.some.injEq] at h
        exact h.symm
    · rw [if_neg hb] at h
      match ds, h with
      | [a, c], h =>
        right
        have h2 : (if (a == ' ' && c.isDigit) = true then some (c.toNat - 48)
            else none) = some dv := h
        by_cases hg : (a == ' ' && c.isDigit) = true
        · rw [if_pos hg] at h2
          have hag := hl_and_true hg
          rw [Option.some.injEq] at h2
          exact ⟨c, by rw [eq_of_beq hag.1], hag.2, h2.symm⟩
        · rw [if_neg hg] at h2
          exact absurd h2 (by simp)
  · intro h
    rcases h with ⟨hne, hlen, hdig, hdv⟩ | ⟨c, hds, hdig, hdv⟩
    · have hb : (!ds.isEmpty && decide (ds.length ≤ 2) && ds.all Char.isDigit) = true := by
        have h1 : ds.isEmpty = false := by
          cases ds with
          | nil => exact absurd rfl hne
          | cons a t => rfl
        rw [h1, decide_eq_true hlen, List.all_eq_true.mpr hdig]
        rfl
      unfold dayField
      rw [if_pos hb, hdv]
    · subst hds
      have hb : (!([' ', c].isEmpty) && decide ([' ', c].length ≤ 2) &&
          [' ', c].all Char.isDigit) = true → False := by
        intro hb
        have := (hl_and_true hb).2
        simp [List.all] at this
      unfold dayField
      rw [if_neg hb]
      have hg : (' ' == ' ' && c.isDigit) = true := by
        rw [hdig]
        rfl
      show (if (' ' == ' ' && c.isDigit) = true then some (c.toNat - 48)
          else none) = some dv
      rw [if_pos hg, hdv]

/-- The format accepted by the date standardization step, spelled as a
decomposition of the normalized string: a strptime day field, a slash, one
or two month digits, a slash, four year digits, nothing else, with values
forming a real calendar date. -/
def lenientDMYFormat (s : List Char) : Prop :=
  ∃ ds ms ys dv, s = ds ++ '/' :: (ms ++ '/' :: ys) ∧
    lenientDayField ds dv ∧
    ms ≠ [] ∧ ms.length ≤ 2 ∧ (∀ c ∈ ms, c.isDigit = true) ∧
    ys.length = 4 ∧ (∀ c ∈ ys, c.isDigit = true) ∧
    isValidCalendarDMY dv (toNatL ms) (toNatL ys) = true

theorem hl_dayField_chars {ds : List Char} {dv : Nat}
    (h : lenientDayField ds dv) : ∀ c ∈ ds, (c == '/') = false := by
  rcases h with ⟨_, _, hdig, _⟩ | ⟨c2, hds, hdig, _⟩
  · exact fun c hc => hl_digit_ne_slash (hdig c hc)
  · intro c hc
    rw [hds] at hc
    rcases List.mem_cons.mp hc with h1 | h1
    · rw [h1]; rfl
    · rcases List.mem_cons.mp h1 with h2 | h2
      · exact h2 ▸ hl_digit_ne_slash hdig
      · exact absurd h2 (by simp)

theorem hl_parseDMY_sound {s : List Char} {dv mv yv : Nat}
    (h : parseDMY s = some (dv, mv, yv)) : lenientDMYFormat s := by
  unfold parseDMY at h
  cases hsp : splitOnChar '/' s with
  | nil => rw [hsp] at h; exact absurd h (by simp)
  | cons d r1 =>
    cases r1 with
    | nil => rw [hsp] at h; exact absurd h (by simp)
    | cons m r2 =>
      cases r2 with
      | nil => rw [hsp] at h; exact absurd h (by simp)
      | cons y r3 =>
        cases r3 with
        | cons w r4 => rw [hsp] at h; exact absurd h (by simp)
        | nil =>
          rw [hsp] at h
          have hjoin : d ++ '/' :: (m ++ '/' :: y) = s := by
            have hj := hl_joinWith_split '/' s
            rw [hsp] at hj
            simpa [joinWith] using hj
          have h2 : (match dayField d with
            | none => none
            | some dv =>
              if !m.isEmpty && decide (m.length ≤ 2) && m.all Char.isDigit &&
                  decide (y.length = 4) && y.all Char.isDigit then
                if isValidCalendarDMY dv (toNatL m) (toNatL y) then
                  some (dv, toNatL m, toNatL y)
                else none
              else none) = some (dv, mv, yv) := h
          cases hday : dayField d with
          | none => rw [hday] at h2; exact absurd h2 (by simp)
          | some dv2 =>
            rw [hday] at h2
            have h3 : (if !m.isEmpty && decide (m.length ≤ 2) && m.all Char.isDigit &&
                  decide (y.length = 4) && y.all Char.isDigit then
                if isValidCalendarDMY dv2 (toNatL m) (toNatL y) then
                  some (dv2, toNatL m, toNatL y)
                else none
              else none) = some (dv, mv, yv) := h2
            by_cases hcond : (!m.isEmpty && decide (m.length ≤ 2) && m.all Char.isDigit &&
                decide (y.length = 4) && y.all Char.isDigit) = true
            · rw [if_pos hcond] at h3
              by_cases hvalid : isValidCalendarDMY dv2 (toNatL m) (toNatL y) = true
              · rw [if_pos hvalid] at h3
                rw [Option.some.injEq] at h3
                have hdv : dv2 = dv := congrArg (fun q => q.1) h3
                have hc1 := hl_and_true hcond
                have hc2 := hl_and_true hc1.1
                have hc3 := hl_and_true hc2.1
                have hc4 := hl_and_true hc3.1
                refine ⟨d, m, y, dv, hjoin.symm, hl_dayField_iff.mp (hdv ▸ hday), ?_,
                  of_decide_eq_true hc4.2, List.all_eq_true.mp hc3.2,
                  of_decide_eq_true hc2.2, List.all_eq_true.mp hc1.2, ?_⟩
                · intro he
                  rw [he] at hc4
                  exact absurd hc4.1 (by decide)
                · rw [← hdv]
                  exact hvalid
              · rw [if_neg hvalid] at h3
                exact absurd h3 (by simp)
            · rw [if_neg hcond] at h3
              exact absurd h3 (by simp)

theorem hl_parseDMY_complete {s : List Char} (h : lenientDMYFormat s) :
    ∃ dv mv yv, parseDMY s = some (dv, mv, yv) := by
  rcases h with ⟨ds, ms, ys, dv, hseq, hday, hmne, hmlen, hmdig, hylen, hydig, hvalid⟩
  have hsplit : splitOnChar '/' s = [ds, ms, ys] := by
    rw [hseq]
    rw [hl_split_append (hl_dayField_chars hday)]
    rw [hl_split_append (fun c hc => hl_digit_ne_slash (hmdig c hc))]
    rw [hl_split_nosep (fun c hc => hl_digit_ne_slash (hydig c hc))]
  refine ⟨dv, toNatL ms, toNatL ys, ?_⟩
  unfold parseDMY
  rw [hsplit]
  show (match dayField ds with
    | none => none
    | some dv =>
      if !ms.isEmpty && decide (ms.length ≤ 2) && ms.all Char.isDigit &&
          decide (ys.length = 4) && ys.all Char.isDigit then
        if isValidCalendarDMY dv (toNatL ms) (toNatL ys) then
          some (dv, toNatL ms, toNatL ys)
        else none
      else none) = some (dv, toNatL ms, toNatL ys)
  rw [hl_dayField_iff.mpr hday]
  have hm1 : ms.isEmpty = false := by
    cases ms with
    | nil => exact absurd rfl hmne
    | cons a t => rfl
  rw [hm1, decide_eq_true hmlen, List.all_eq_true.mpr hmdig,
    decide_eq_true hylen, List.all_eq_true.mpr hydig]
  simp only [Bool.not_false, Bool.and_self, if_true, hvalid]

/-- Follows the words of the claim: the normalized string is a digits-only
DD/MM/YYYY calendar date, that is one or two day digits, a slash, one or
two month digits, a slash, and four year digits, whose values form a real
calendar date. -/
def strictDMYFormat (s : List Char) : Bool :=
  match splitOnChar '/' s with
  | [d, m, y] =>
    !d.isEmpty && decide (d.length ≤ 2) && d.all Char.isDigit &&
    !m.isEmpty && decide (m.length ≤ 2) && m.all Char.isDigit &&
    decide (y.length = 4) && y.all Char.isDigit &&
    isValidCalendarDMY (toNatL d) (toNatL m) (toNatL y)
  | _ => false

/-- C8 counterexample: the raw date of a single space, 1, slash, 2, slash,
2024 is not in DD/MM/YYYY digit format, yet standardization succeeds (a
quirk of the strptime day directive, whose regex also accepts a space
followed by one digit) and a file is saved; so success is not exactly the
DD/MM/YYYY condition stated by the claim. -/
theorem c8_space_day_divergence :
    standardizeDate " 1/2/2024".data = some "2024-02-01".data ∧
    runMain " 1/2/2024".data "Test".data none =
      MainOutcome.saved "2024-02-01_Test.pdf".data ∧
    strictDMYFormat (normalizeSeps " 1/2/2024".data) = false :=
  ⟨by decide, by decide, by decide⟩

/-- C8 (amended): standardization succeeds exactly when the raw date,
after replacing hyphens and periods by slashes, decomposes as day field,
slash, month digits, slash, four year digits forming a real calendar date,
where the day field is one or two digits or, by a quirk of strptime, a
single space followed by one digit; on success the result is the
YYYY-MM-DD form of the parsed values, and on failure the main block exits
with status 1 without writing a file (so the malformed 13/13/2024 is a
fatal exit with no file written). -/
theorem c8_date_standardization (raw subj : List Char) (t : Option (List Char))
    (hr : raw ≠ []) (hs : subj ≠ []) :
    ((standardizeDate raw).isSome = true ↔ lenientDMYFormat (normalizeSeps raw)) ∧
    (∀ d m y, parseDMY (normalizeSeps raw) = some (d, m, y) →
      standardizeDate raw = some (formatYMD y m d)) ∧
    (standardizeDate raw = none → runMain raw subj t = MainOutcome.exitErr) := by
  refine ⟨⟨?_, ?_⟩, ?_, ?_⟩
  · intro hsome
    cases hp : parseDMY (normalizeSeps raw) with
    | none =>
      unfold standardizeDate at hsome
      rw [hp] at hsome
      exact absurd hsome (by simp)
    | some q =>
      obtain ⟨d1, m1, y1⟩ := q
      exact hl_parseDMY_sound hp
  · intro hlen
    obtain ⟨dv, mv, yv, hp⟩ := hl_parseDMY_complete hlen
    unfold standardizeDate
    rw [hp]
    rfl
  · intro d m y hp
    unfold standardizeDate
    rw [hp]
    rfl
  · intro hnone
    rw [hl_runMain_manual raw subj t hr hs]
    cases hcond : (raw.isEmpty || subj.isEmpty || subj == subjNotFound) with
    | true => simp
    | false =>
      simp only [Bool.false_eq_true, if_false]
      rw [hnone]

/-- C8 witness: the malformed raw date 13/13/2024 fails standardization
and the run exits with status 1 without saving. -/
theorem c8_date_standardization_witness :
    standardizeDate "13/13/2024".data = none ∧
    runMain "13/13/2024".data "Test".data none = MainOutcome.exitErr :=
  ⟨by decide,
    (c8_date_standardization _ _ none (by decide) (by decide)).2.2 (by decide)⟩

end GstProcessor
